import Mathlib

/-!
Shallow embedding of the checkpoint versioning protocol implemented by
checkpoint_monitor.py and resume_model_from_hf.py.

Modelling conventions:
* Python strings are lists of characters (`Str`); comparison of strings is
  lexicographic by code point, exactly as in Python.
* Remote calls are oracles: a call that can raise an exception is a value of
  type `Except Unit _`, where `Except.error ()` stands for a raised exception
  (the exception payload is only printed by the scripts, never inspected).
* Python `list.sort` is a stable ascending sort; a stable sort is uniquely
  determined by the comparator and the input, so it is modelled by a stable
  insertion sort, which is extensionally the same function.
-/

namespace Ccot

/-- Python strings, modelled as lists of characters (code points). -/
abbrev Str := List Char

instance {ε α : Type} [DecidableEq ε] [DecidableEq α] : DecidableEq (Except ε α) := fun a b =>
  match a, b with
  | .error x, .error y =>
    if h : x = y then .isTrue (by rw [h]) else .isFalse (by intro hc; cases hc; exact h rfl)
  | .error _, .ok _ => .isFalse (by intro hc; cases hc)
  | .ok _, .error _ => .isFalse (by intro hc; cases hc)
  | .ok x, .ok y =>
    if h : x = y then .isTrue (by rw [h]) else .isFalse (by intro hc; cases hc; exact h rfl)

/-- Name of the completion-marker file, `finish_check.txt`. -/
def finishCheckFile : Str := "finish_check.txt".toList

/-- The protected default branch name. -/
def mainBranch : Str := "main".toList

/-- Python string comparison `a <= b`: lexicographic by code point. -/
def strLe : Str → Str → Bool
  | [], _ => true
  | _ :: _, [] => false
  | a :: as, b :: bs =>
    if a.toNat < b.toNat then true
    else if b.toNat < a.toNat then false
    else strLe as bs

/-- Stable insertion used by `sortLe`: the new element is placed in front of the
first element it compares less-or-equal to. -/
def insertLe (le : α → α → Bool) (a : α) : List α → List α
  | [] => [a]
  | b :: t => if le a b then a :: b :: t else b :: insertLe le a t

/-- Stable ascending sort by the comparator `le`; models Python `list.sort`. -/
def sortLe (le : α → α → Bool) : List α → List α
  | [] => []
  | a :: t => insertLe le a (sortLe le t)

/-- Leading and trailing whitespace removal; models Python `str.strip()`. -/
def stripWs (s : Str) : Str :=
  ((s.dropWhile Char.isWhitespace).reverse.dropWhile Char.isWhitespace).reverse

/-- Digit run of a Python integer literal as accepted by `int(...)`: nonempty
ASCII digits with single underscores allowed between digits.  (Python also
accepts non-ASCII decimal digits; only the ASCII fragment is modelled.) -/
def pyDigits : Str → Bool
  | [] => false
  | [c] => c.isDigit
  | c :: '_' :: rest => c.isDigit && pyDigits rest
  | c :: c2 :: rest => c.isDigit && pyDigits (c2 :: rest)

/-- Numeric value of a digit run (underscores already removed). -/
def digitsVal (cs : Str) : Nat :=
  cs.foldl (fun acc c => 10 * acc + (c.toNat - 48)) 0

/-- Python `int(s)` on a string: strip whitespace, optional sign, digit run.
`none` models a raised `ValueError`. -/
def pyInt (s : Str) : Option Int :=
  match stripWs s with
  | '+' :: rest =>
    if pyDigits rest then some (Int.ofNat (digitsVal (rest.filter (fun c => c ≠ '_')))) else none
  | '-' :: rest =>
    if pyDigits rest then some (-(Int.ofNat (digitsVal (rest.filter (fun c => c ≠ '_'))))) else none
  | rest =>
    if pyDigits rest then some (Int.ofNat (digitsVal (rest.filter (fun c => c ≠ '_')))) else none

/-- Embeds `read_latest_step` (checkpoint_monitor.py lines 69-79).  The argument
is the content of `latest_checkpointed_iteration.txt`, `none` when the file is
absent or reading it raises.  The content is stripped and parsed with `int`;
any failure falls through to the sentinel `-1`. -/
def read_latest_step (content : Option Str) : Int :=
  match content with
  | none => -1
  | some s =>
    match pyInt (stripWs s) with
    | some n => n
    | none => -1

/-- Embeds one iteration body of the `while True` loop of `monitor_checkpoints`
(checkpoint_monitor.py lines 229-256).  `uploadOk` records whether the upload
attempt inside `upload_checkpoint_to_hf` succeeded; it cannot influence the
result because `upload_checkpoint_to_hf` catches every exception internally
(lines 160-161) and returns normally, after which `last_step = current_step`
runs unconditionally (line 250).  Returns the new `last_step` and whether an
upload was attempted on this tick. -/
def monitorTick (uploadOk : Bool) (last current : Int) : Int × Bool :=
  if current > last ∧ current ≠ -1 then (current, true) else (last, false)

/-- Embeds the branch-name filter of `_cleanup_old_branches`
(checkpoint_monitor.py lines 171-180): a branch is collected iff its name is
not `main`, has length 15 and has an underscore at index 8.  No digit check is
performed there.  (The peeling of the fixed `refs/heads/` namespace from each
listed ref, line 172, is modelled by taking the branch names directly as
input.) -/
def isTimestampBranch (name : Str) : Bool :=
  name ≠ mainBranch && name.length == 15 && name[8]? == some '_'

/-- The timestamp-shaped branch names among the listed branches
(checkpoint_monitor.py lines 170-180). -/
def timestampBranches (branches : List Str) : List Str :=
  branches.filter isTimestampBranch

/-- Python slice `l[:-k]`.  For `k = 0` this is `l[:0] = []`, not the whole
list. -/
def sliceDropLast (l : List α) (k : Nat) : List α :=
  if k = 0 then [] else l.take (l.length - k)

/-- Embeds the selection of branches to delete in `_cleanup_old_branches`
(checkpoint_monitor.py lines 184-191): sort the timestamp-shaped names as
strings and, when there are more than `keepCount` of them, take the slice
`[:-keepCount]`.  The call to `delete_invalid_branches` at line 184 is
commented out in the source, so no completion-marker validation happens
here. -/
def branchesToDelete (branches : List Str) (keepCount : Nat) : List Str :=
  let ts := sortLe strLe (timestampBranches branches)
  if keepCount < ts.length then sliceDropLast ts keepCount else []

/-- Embeds the deletion loop of `_cleanup_old_branches` (checkpoint_monitor.py
lines 194-199): each `delete_branch` call sits in its own try/except, so every
branch in the list is attempted regardless of earlier failures.  Records each
attempted branch together with whether its deletion succeeded. -/
def deleteLoop (deleteBranch : Str → Except Unit Unit) : List Str → List (Str × Bool)
  | [] => []
  | b :: rest => (b, (deleteBranch b).isOk) :: deleteLoop deleteBranch rest

/-- Body of `_cleanup_old_branches` inside the outer `try` (checkpoint_monitor.py
lines 166-199): list the refs (which may raise), filter, sort, slice, then run
the deletion loop. -/
def cleanupBody (listRefs : Except Unit (List Str))
    (deleteBranch : Str → Except Unit Unit) (keepCount : Nat) :
    Except Unit (List (Str × Bool)) := do
  let refs ← listRefs
  pure (deleteLoop deleteBranch (branchesToDelete refs keepCount))

/-- Embeds `_cleanup_old_branches` (checkpoint_monitor.py lines 164-202): the
whole body is wrapped in try/except (lines 201-202), so a raised error is
caught, logged, and an empty attempt list results.  The returned value is the
list of deletion attempts, each with its outcome. -/
def cleanup_old_branches (listRefs : Except Unit (List Str))
    (deleteBranch : Str → Except Unit Unit) (keepCount : Nat) :
    Except Unit (List (Str × Bool)) :=
  match cleanupBody listRefs deleteBranch keepCount with
  | .ok r => .ok r
  | .error _ => .ok []

/-- Embeds `delete_invalid_branches` (checkpoint_monitor.py lines 17-67).  For
each branch: `main` is kept with no check at all; otherwise the files of the
branch are listed and the branch is kept iff `finish_check.txt` is among them.
A branch whose marker is missing is deleted (line 53); if that deletion raises,
the except handler attempts the deletion a second time (line 61).  A branch
whose files cannot be listed also gets a best-effort deletion from the handler.
Returns the valid branches and the sequence of attempted deletions. -/
def delete_invalid_branches (listFiles : Str → Except Unit (List Str))
    (deleteBranch : Str → Except Unit Unit) : List Str → List Str × List Str
  | [] => ([], [])
  | b :: rest =>
    let r := delete_invalid_branches listFiles deleteBranch rest
    if b = mainBranch then (b :: r.1, r.2)
    else
      match listFiles b with
      | .ok files =>
        if finishCheckFile ∈ files then (b :: r.1, r.2)
        else
          match deleteBranch b with
          | .ok _ => (r.1, b :: r.2)
          | .error _ => (r.1, b :: b :: r.2)
      | .error _ => (r.1, b :: r.2)

/-- Remote operations issued by `upload_checkpoint_to_hf`, in source order. -/
inductive UpOp
  | repoInfo
  | createRepo
  | createBranch
  | upIterFile
  | upFolder
  | upMarker
  | cleanup
deriving DecidableEq

/-- Which remote calls succeed during one upload invocation. -/
structure UpOracle where
  repoInfoOk : Bool
  createRepoOk : Bool
  createBranchOk : Bool
  upIterOk : Bool
  upFolderOk : Bool
  upMarkerOk : Bool
deriving DecidableEq

/-- Remote-call trace of `upload_checkpoint_to_hf` after the
repository-existence step (checkpoint_monitor.py lines 120-158), stopping at
the first failing call: a raised exception jumps to the outer except handler
(lines 160-161), which only logs. -/
def uploadTail (o : UpOracle) : List UpOp :=
  UpOp.createBranch ::
    (if o.createBranchOk then
      UpOp.upIterFile ::
        (if o.upIterOk then
          UpOp.upFolder ::
            (if o.upFolderOk then
              UpOp.upMarker :: (if o.upMarkerOk then [UpOp.cleanup] else [])
            else [])
        else [])
    else [])

/-- Embeds `upload_checkpoint_to_hf` (checkpoint_monitor.py lines 82-161) as
the ordered trace of remote calls it issues.  When the checkpoint folder is
missing the function returns before any remote call (lines 98-100).  A failing
`repo_info` is caught by the inner except handler (line 109), which calls
`create_repo`; a failure of any other call aborts the remaining steps via the
outer except handler. -/
def upload_checkpoint_to_hf (folderExists : Bool) (o : UpOracle) : List UpOp :=
  if folderExists then
    UpOp.repoInfo ::
      (if o.repoInfoOk then uploadTail o
       else UpOp.createRepo :: (if o.createRepoOk then uploadTail o else []))
  else []

/-- The operations that write an object into the version container: the
progress scalar file, the snapshot folder contents, the completion marker. -/
def isWrite : UpOp → Bool
  | .upIterFile => true
  | .upFolder => true
  | .upMarker => true
  | _ => false

/-- Full timestamp-shape check used by the Resolver (resume_model_from_hf.py
lines 42-46): length 15, underscore at index 8, the eight date characters and
the six time characters all decimal digits. -/
def isTimestampShape (suffix : Str) : Bool :=
  suffix.length == 15 && suffix[8]? == some '_' &&
  (suffix.take 8).all Char.isDigit && (suffix.drop 9).all Char.isDigit

/-- Python `s.split(sep)` for a one-character separator. -/
def splitOnChar (sep : Char) : Str → List Str
  | [] => [[]]
  | c :: rest =>
    let r := splitOnChar sep rest
    if c = sep then [] :: r
    else
      match r with
      | [] => [[c]]
      | h :: t => (c :: h) :: t

/-- The candidate pattern for a series: the base repository name followed by a
dash (resume_model_from_hf.py line 34). -/
def patternOf (baseRepoName : Str) : Str := baseRepoName ++ ['-']

/-- Result of the completion-marker check on a file-listing call: true iff the
listing succeeded and `finish_check.txt` is among the files; a raised listing
error counts as no marker (the repository is skipped). -/
def hasMarker : Except Unit (List Str) → Bool
  | .ok files => files.contains finishCheckFile
  | .error _ => false

/-- Embeds the per-repository filter of `find_valid_timestamped_repos`
(resume_model_from_hf.py lines 36-61): the short name (after the last slash of
the model id, line 37) must start with the base name plus dash, the remaining
suffix must have the full timestamp shape, and listing the repository files
must succeed and contain `finish_check.txt`.  Returns the collected
(timestamp, repoId) pair, or `none` when the repository is skipped (including
when listing its files raises, line 58). -/
def candidatePair (listFiles : Str → Except Unit (List Str)) (baseRepoName : Str)
    (modelId : Str) : Option (Str × Str) :=
  let repoName := (splitOnChar '/' modelId).getLastD modelId
  let pat := patternOf baseRepoName
  if pat.isPrefixOf repoName then
    if isTimestampShape (repoName.drop pat.length) then
      if hasMarker (listFiles modelId) then some (repoName.drop pat.length, modelId)
      else none
    else none
  else none

/-- Embeds `find_valid_timestamped_repos` (resume_model_from_hf.py lines
14-69): collect the valid (timestamp, repoId) pairs over all listed models and
sort them by timestamp.  A failing `list_models` is caught by the outer except
handler (line 66) and yields the empty list. -/
def find_valid_timestamped_repos (listFiles : Str → Except Unit (List Str))
    (baseRepoName : Str) (listModels : Except Unit (List Str)) : List (Str × Str) :=
  match listModels with
  | .error _ => []
  | .ok repos =>
    sortLe (fun x y => strLe x.1 y.1)
      (repos.filterMap (candidatePair listFiles baseRepoName))

/-- Embeds `get_latest_timestamped_repo` (resume_model_from_hf.py lines
72-98): the repository id of the last entry of the sorted valid list, `none`
when that list is empty (Python returns `None`). -/
def get_latest_timestamped_repo (listFiles : Str → Except Unit (List Str))
    (baseRepoName : Str) (listModels : Except Unit (List Str)) : Option Str :=
  (find_valid_timestamped_repos listFiles baseRepoName listModels).getLast?.map Prod.snd

/-- Modelled from the spec: the exact Version Identifier shape demanded by the
naming contract of section 6 — a fixed-width timestamp of 14 decimal digits
plus one separator, YYYYMMDD then an underscore then HHMMSS.  Used only to
compare the two discovery filters of the source against the contract. -/
def specVersionIdShape (name : Str) : Bool :=
  name.length == 15 && name[8]? == some '_' &&
  (name.take 8).all Char.isDigit && (name.drop 9).all Char.isDigit

/-! Supporting lemmas about the string order, the stable sort and the
embedded operations. -/

/-- Characterization of `strLe` on two nonempty strings. -/
theorem strLe_cons (x y : Char) (as bs : Str) :
    strLe (x :: as) (y :: bs) = true ↔
      (x.toNat < y.toNat ∨ (x.toNat = y.toNat ∧ strLe as bs = true)) := by
  simp only [strLe]
  by_cases h1 : x.toNat < y.toNat
  · simp [h1]
  · by_cases h2 : y.toNat < x.toNat
    · simp [h1, h2]
      omega
    · have hxy : x.toNat = y.toNat := by omega
      simp [h1, h2, hxy]

/-- `strLe` is total. -/
theorem strLe_total : ∀ a b : Str, (strLe a b || strLe b a) = true := by
  intro a
  induction a with
  | nil => intro b; simp [strLe]
  | cons x as ih =>
    intro b
    cases b with
    | nil => simp [strLe]
    | cons y bs =>
      simp only [Bool.or_eq_true, strLe_cons]
      have := ih bs
      simp only [Bool.or_eq_true] at this
      rcases Nat.lt_trichotomy x.toNat y.toNat with h | h | h
      · tauto
      · tauto
      · tauto

/-- `strLe` is reflexive. -/
theorem strLe_refl (a : Str) : strLe a a = true := by
  have := strLe_total a a
  simpa using this

/-- `strLe` is transitive. -/
theorem strLe_trans : ∀ a b c : Str, strLe a b = true → strLe b c = true →
    strLe a c = true := by
  intro a
  induction a with
  | nil => intro b c _ _; simp [strLe]
  | cons x as ih =>
    intro b c hab hbc
    cases b with
    | nil => simp [strLe] at hab
    | cons y bs =>
      cases c with
      | nil => simp [strLe] at hbc
      | cons z cs =>
        rw [strLe_cons] at hab hbc ⊢
        rcases hab with h1 | ⟨h1, h1r⟩ <;> rcases hbc with h2 | ⟨h2, h2r⟩
        · exact Or.inl (by omega)
        · exact Or.inl (by omega)
        · exact Or.inl (by omega)
        · exact Or.inr ⟨by omega, ih bs cs h1r h2r⟩

/-- Membership in a stable insertion. -/
theorem mem_insertLe {α : Type} (le : α → α → Bool) (a x : α) :
    ∀ l : List α, (x ∈ insertLe le a l ↔ x = a ∨ x ∈ l) := by
  intro l
  induction l with
  | nil => simp [insertLe]
  | cons b t ih =>
    simp only [insertLe]
    by_cases h : le a b = true
    · rw [if_pos h]
      simp [List.mem_cons]
    · rw [if_neg h]
      simp only [List.mem_cons, ih]
      tauto

/-- A stable insertion never produces the empty list. -/
theorem insertLe_ne_nil {α : Type} (le : α → α → Bool) (a : α) :
    ∀ l : List α, insertLe le a l ≠ [] := by
  intro l
  cases l with
  | nil => simp [insertLe]
  | cons b t =>
    simp only [insertLe]
    split <;> simp

/-- Inserting into a `le`-sorted list keeps it sorted, given a total and
transitive comparator. -/
theorem pairwise_insertLe {α : Type} {le : α → α → Bool}
    (htr : ∀ a b c, le a b = true → le b c = true → le a c = true)
    (hto : ∀ a b, (le a b || le b a) = true) (a : α) :
    ∀ {l : List α}, l.Pairwise (fun x y => le x y = true) →
      (insertLe le a l).Pairwise (fun x y => le x y = true) := by
  intro l
  induction l with
  | nil => intro _; simp [insertLe]
  | cons b t ih =>
    intro hp
    rcases List.pairwise_cons.mp hp with ⟨hb, ht⟩
    simp only [insertLe]
    by_cases h : le a b = true
    · rw [if_pos h]
      refine List.pairwise_cons.mpr ⟨?_, hp⟩
      intro y hy
      rcases List.mem_cons.mp hy with rfl | hy2
      · exact h
      · exact htr a b y h (hb y hy2)
    · have hba : le b a = true := by
        have := hto a b
        simp only [Bool.or_eq_true] at this
        tauto
      rw [if_neg h]
      refine List.pairwise_cons.mpr ⟨?_, ih ht⟩
      intro y hy
      rcases (mem_insertLe le a y t).mp hy with rfl | hy2
      · exact hba
      · exact hb y hy2

/-- The stable sort is sorted, given a total and transitive comparator. -/
theorem pairwise_sortLe {α : Type} {le : α → α → Bool}
    (htr : ∀ a b c, le a b = true → le b c = true → le a c = true)
    (hto : ∀ a b, (le a b || le b a) = true) :
    ∀ l : List α, (sortLe le l).Pairwise (fun x y => le x y = true) := by
  intro l
  induction l with
  | nil => simp [sortLe]
  | cons a t ih => exact pairwise_insertLe htr hto a ih

/-- The stable sort preserves membership. -/
theorem mem_sortLe {α : Type} (le : α → α → Bool) (x : α) :
    ∀ l : List α, (x ∈ sortLe le l ↔ x ∈ l) := by
  intro l
  induction l with
  | nil => simp [sortLe]
  | cons a t ih => simp [sortLe, mem_insertLe, ih, List.mem_cons]

/-- The stable sort of a list is empty only for the empty list. -/
theorem sortLe_eq_nil {α : Type} (le : α → α → Bool) :
    ∀ l : List α, (sortLe le l = [] ↔ l = []) := by
  intro l
  cases l with
  | nil => simp [sortLe]
  | cons a t => simp [sortLe, insertLe_ne_nil]

/-- The last element of a list is a member of it. -/
theorem getLastMem {α : Type} : ∀ {l : List α} {m : α}, l.getLast? = some m → m ∈ l := by
  intro l
  induction l with
  | nil => intro m h; cases h
  | cons a t ih =>
    intro m h
    cases t with
    | nil =>
      simp only [List.getLast?_singleton, Option.some.injEq] at h
      simp [h]
    | cons b t2 =>
      rw [List.getLast?_cons_cons] at h
      exact List.mem_cons_of_mem a (ih h)

/-- In a `le`-sorted list, every element compares `le` to the last one. -/
theorem pairwiseLeGetLast {α : Type} {le : α → α → Bool} :
    ∀ {l : List α} {m : α}, l.Pairwise (fun x y => le x y = true) →
      l.getLast? = some m → ∀ x ∈ l, x = m ∨ le x m = true := by
  intro l
  induction l with
  | nil => intro m _ h; cases h
  | cons a t ih =>
    intro m hp hl x hx
    cases t with
    | nil =>
      simp only [List.getLast?_singleton, Option.some.injEq] at hl
      rcases List.mem_singleton.mp hx with rfl
      exact Or.inl (by simp_all)
    | cons b t2 =>
      rw [List.getLast?_cons_cons] at hl
      rcases List.pairwise_cons.mp hp with ⟨ha, ht⟩
      rcases List.mem_cons.mp hx with rfl | hx2
      · exact Or.inr (ha m (getLastMem hl))
      · exact ih ht hl x hx2

/-- The deletion loop visits every branch of its input, in order, recording
the outcome of each attempt. -/
theorem deleteLoop_eq (d : Str → Except Unit Unit) :
    ∀ l : List Str, deleteLoop d l = l.map (fun b => (b, (d b).isOk)) := by
  intro l
  induction l with
  | nil => rfl
  | cons b t ih => simp [deleteLoop, ih]

/-- What a collected Resolver candidate satisfies: its second component is the
model id it came from, its first component has the full timestamp shape, and
its file listing succeeded and contains the completion marker. -/
theorem candidatePair_spec {lf : Str → Except Unit (List Str)} {base r : Str}
    {p : Str × Str} (h : candidatePair lf base r = some p) :
    p.2 = r ∧ isTimestampShape p.1 = true ∧
      ∃ files, lf r = .ok files ∧ finishCheckFile ∈ files := by
  simp only [candidatePair] at h
  split at h
  · split at h
    · rename_i hshape
      split at h
      · rename_i hmk
        cases h
        refine ⟨rfl, hshape, ?_⟩
        cases hlf : lf r with
        | ok files =>
          rw [hlf] at hmk
          simp only [hasMarker] at hmk
          simp at hmk
          exact ⟨files, rfl, hmk⟩
        | error e => rw [hlf] at hmk; simp [hasMarker] at hmk
      · cases h
    · cases h
  · cases h

/-- Membership in the sorted valid-candidate list of the Resolver. -/
theorem mem_find_valid {lf : Str → Except Unit (List Str)} {base : Str}
    {repos : List Str} {p : Str × Str} :
    p ∈ find_valid_timestamped_repos lf base (.ok repos) ↔
      ∃ r ∈ repos, candidatePair lf base r = some p := by
  simp [find_valid_timestamped_repos, mem_sortLe, List.mem_filterMap]

/-! Claim theorems. -/

/-- Claim C1, counterexample: on a tick with tracked step 0 and current step 5
an upload is attempted; with the upload failing (uploadOk = false) the tracked
last-uploaded step still advances to 5 instead of staying unchanged, because
`upload_checkpoint_to_hf` swallows its errors and `last_step = current_step`
runs unconditionally afterwards. -/
theorem c1_counterexample :
    (monitorTick false 0 5).2 = true ∧ (monitorTick false 0 5).1 ≠ 0 := by decide

/-- Claim C1 (amended): on every poll tick that attempts an upload, the
tracked last-uploaded step advances to the current step regardless of whether
the upload attempt succeeded or failed; a failed step is therefore not retried
on the next cycle unless the progress scalar advances again. -/
theorem c1_advance_regardless (uploadOk : Bool) (last current : Int)
    (h : current > last ∧ current ≠ -1) :
    monitorTick uploadOk last current = (current, true) := by
  simp [monitorTick, h]

/-- Claim C1, witness for the amended statement at uploadOk = false, last
step 0, current step 5. -/
theorem c1_witness : monitorTick false 0 5 = (5, true) :=
  c1_advance_regardless false 0 5 (by decide)

/-- Claim C2 (code bug): a timestamped version container lacking the
completion marker is not deleted by the retention pass, because the validation
call of checkpoint_monitor.py line 184 is commented out.  Concretely, with a
repository whose only timestamp branch has no `finish_check.txt`: the intended
validation sweep `delete_invalid_branches` classifies the branch as invalid
(empty valid set, one deletion), while the actual pass with window 3 attempts
no deletion at all, so the marker-less container survives and is counted for
window pruning. -/
theorem c2_invalid_branch_survives :
    (delete_invalid_branches (fun _ => .ok []) (fun _ => .ok ())
        ["20250101_000001".toList]).1 = [] ∧
    (delete_invalid_branches (fun _ => .ok []) (fun _ => .ok ())
        ["20250101_000001".toList]).2 = ["20250101_000001".toList] ∧
    cleanup_old_branches (.ok ["20250101_000001".toList]) (fun _ => .ok ()) 3 =
      .ok [] := by decide

/-- Claim C3 (code bug): with window K = 3 and four timestamp branches of
which only the oldest carries the completion marker, the retention pass
deletes exactly that only valid branch - the validation sweep (first conjunct,
computed with a file-listing oracle that shows the marker only on the oldest
branch) certifies it is the only valid one - so after the pass 0 valid
containers remain instead of min(K, 1) = 1, and the retained set is not the
valid set at scan time. -/
theorem c3_valid_count_not_preserved :
    (delete_invalid_branches
        (fun b => if b = "20250101_000001".toList then Except.ok [finishCheckFile]
          else Except.ok [])
        (fun _ => .ok ())
        ["20250101_000001".toList, "20250101_000002".toList,
          "20250101_000003".toList, "20250101_000004".toList]).1 =
      ["20250101_000001".toList] ∧
    cleanup_old_branches
        (.ok ["20250101_000001".toList, "20250101_000002".toList,
          "20250101_000003".toList, "20250101_000004".toList])
        (fun _ => .ok ()) 3 =
      .ok [("20250101_000001".toList, true)] := by decide

/-- Claim C7 (code bug): with keepCount = 0 every enumerated version container
should be immediately prunable, but the pass deletes nothing, because the
Python slice `timestamp_branches[:-0]` is the empty slice: with one timestamp
branch present, the selection is empty and the pass attempts no deletion. -/
theorem c7_keep_zero_deletes_nothing :
    branchesToDelete ["20250101_120000".toList] 0 = [] ∧
    cleanup_old_branches (.ok ["20250101_120000".toList]) (fun _ => .ok ()) 0 =
      .ok [] := by decide

/-- Claim C9: when the progress file is absent or its stripped content does
not parse as an integer, `read_latest_step` yields the sentinel -1, and the
poll tick takes no upload action and leaves the tracked step unchanged. -/
theorem c9_sentinel_no_upload (content : Option Str) (uploadOk : Bool) (last : Int)
    (h : content = none ∨ ∃ s, content = some s ∧ pyInt (stripWs s) = none) :
    read_latest_step content = -1 ∧
    monitorTick uploadOk last (read_latest_step content) = (last, false) := by
  have h1 : read_latest_step content = -1 := by
    rcases h with rfl | ⟨s, rfl, hs⟩
    · rfl
    · simp [read_latest_step, hs]
  refine ⟨h1, ?_⟩
  rw [h1]
  simp [monitorTick]

/-- Claim C9, witness: a progress file containing `abc` yields -1 and no
upload action on a tick with tracked step 0. -/
theorem c9_witness :
    read_latest_step (some "abc".toList) = -1 ∧
    monitorTick true 0 (read_latest_step (some "abc".toList)) = (0, false) :=
  c9_sentinel_no_upload (some "abc".toList) true 0
    (Or.inr ⟨"abc".toList, rfl, by decide⟩)

/-- Claim C5: on every successful upload invocation - checkpoint folder
present, every issued remote call succeeding (`repo_info` may fail provided
the fallback `create_repo` succeeds) - the objects written into the version
container are, in order, the progress scalar file, the snapshot folder and
last the completion marker, and the retention cleanup is the final call of the
trace, strictly after the marker write. -/
theorem c5_marker_last_write (folderExists : Bool) (o : UpOracle)
    (hf : folderExists = true)
    (hrepo : o.repoInfoOk = true ∨ o.createRepoOk = true)
    (hb : o.createBranchOk = true) (hi : o.upIterOk = true)
    (hfo : o.upFolderOk = true) (hm : o.upMarkerOk = true) :
    (upload_checkpoint_to_hf folderExists o).filter isWrite =
      [UpOp.upIterFile, UpOp.upFolder, UpOp.upMarker] ∧
    (upload_checkpoint_to_hf folderExists o).getLast? = some UpOp.cleanup := by
  subst hf
  obtain ⟨a, b, c, d, e, f⟩ := o
  simp only at hrepo hb hi hfo hm
  subst hb hi hfo hm
  rcases hrepo with h | h
  · subst h
    cases b <;> decide
  · subst h
    cases a <;> decide

/-- Claim C5, witness at the all-successful oracle. -/
theorem c5_witness :
    (upload_checkpoint_to_hf true ⟨true, true, true, true, true, true⟩).filter isWrite =
      [UpOp.upIterFile, UpOp.upFolder, UpOp.upMarker] ∧
    (upload_checkpoint_to_hf true ⟨true, true, true, true, true, true⟩).getLast? =
      some UpOp.cleanup :=
  c5_marker_last_write true ⟨true, true, true, true, true, true⟩ rfl (Or.inl rfl)
    rfl rfl rfl rfl

/-- Claim C8: `_cleanup_old_branches` never raises to its caller - for every
refs-listing outcome, every deletion oracle and every keep count the embedded
function returns normally - and when the listing succeeds, every branch
selected for deletion is attempted with its own outcome recorded, regardless
of the failures of the other deletions (per-item isolation). -/
theorem c8_cleanup_never_raises (listRefs : Except Unit (List Str))
    (deleteBranch : Str → Except Unit Unit) (keepCount : Nat) :
    (cleanup_old_branches listRefs deleteBranch keepCount).isOk = true ∧
    ∀ refs, listRefs = .ok refs →
      cleanup_old_branches listRefs deleteBranch keepCount =
        .ok ((branchesToDelete refs keepCount).map
          (fun b => (b, (deleteBranch b).isOk))) := by
  constructor
  · cases listRefs with
    | ok refs => simp [cleanup_old_branches, cleanupBody, Except.isOk, Except.toBool]
    | error e =>
      simp [cleanup_old_branches, cleanupBody, Except.isOk, Except.toBool]
  · rintro refs rfl
    simp [cleanup_old_branches, cleanupBody, deleteLoop_eq]

/-- Claim C8, witness: three timestamp branches with keep count 1; the first
deletion attempt fails, the second branch is still attempted, and the call
returns normally with both attempts recorded. -/
theorem c8_witness :
    cleanup_old_branches
        (.ok ["20250102_000000".toList, "20250101_000000".toList,
          "20250103_000000".toList])
        (fun b => if b = "20250101_000000".toList then Except.error ()
          else Except.ok ()) 1 =
      .ok [("20250101_000000".toList, false), ("20250102_000000".toList, true)] := by
  have h := (c8_cleanup_never_raises
      (.ok ["20250102_000000".toList, "20250101_000000".toList,
        "20250103_000000".toList])
      (fun b => if b = "20250101_000000".toList then Except.error ()
        else Except.ok ()) 1).2
      ["20250102_000000".toList, "20250101_000000".toList,
        "20250103_000000".toList] rfl
  rw [h]
  decide

/-- Claim C10: the branch `main` is classified as valid by the validation
sweep with no completion-marker check (for every file-listing oracle,
including one that always raises), it is never among the sweep's deletion
attempts, and it is never selected by the window-pruning step. -/
theorem c10_main_protected (listFiles : Str → Except Unit (List Str))
    (deleteBranch : Str → Except Unit Unit) (branches : List Str) (keepCount : Nat)
    (h : mainBranch ∈ branches) :
    mainBranch ∈ (delete_invalid_branches listFiles deleteBranch branches).1 ∧
    mainBranch ∉ (delete_invalid_branches listFiles deleteBranch branches).2 ∧
    mainBranch ∉ branchesToDelete branches keepCount := by
  refine ⟨?_, ?_, ?_⟩
  · induction branches with
    | nil => cases h
    | cons b rest ih =>
      by_cases hb : b = mainBranch
      · subst hb
        simp [delete_invalid_branches, List.mem_cons]
      · have hrest : mainBranch ∈ rest := by
          rcases List.mem_cons.mp h with heq | hr
          · exact absurd heq.symm hb
          · exact hr
        have ihm := ih hrest
        simp only [delete_invalid_branches]
        rw [if_neg hb]
        cases listFiles b with
        | ok files =>
          by_cases hmem : finishCheckFile ∈ files
          · simp only [if_pos hmem]
            exact List.mem_cons_of_mem b ihm
          · simp only [if_neg hmem]
            cases deleteBranch b with
            | ok u => exact ihm
            | error e => exact ihm
        | error e => exact ihm
  · clear h
    induction branches with
    | nil => simp [delete_invalid_branches]
    | cons b rest ih =>
      by_cases hb : b = mainBranch
      · subst hb
        simpa [delete_invalid_branches] using ih
      · simp only [delete_invalid_branches]
        rw [if_neg hb]
        have hbm : ¬ mainBranch = b := fun heq => hb heq.symm
        cases listFiles b with
        | ok files =>
          by_cases hmem : finishCheckFile ∈ files
          · simp only [if_pos hmem]
            exact ih
          · simp only [if_neg hmem]
            cases deleteBranch b with
            | ok u =>
              simp only [List.mem_cons]
              tauto
            | error e =>
              simp only [List.mem_cons]
              tauto
        | error e =>
          simp only [List.mem_cons]
          tauto
  · intro hmem
    unfold branchesToDelete at hmem
    have hts : mainBranch ∈ timestampBranches branches := by
      by_cases hlen : keepCount < (sortLe strLe (timestampBranches branches)).length
      · rw [if_pos hlen] at hmem
        have h1 : mainBranch ∈ sortLe strLe (timestampBranches branches) := by
          unfold sliceDropLast at hmem
          by_cases hk : keepCount = 0
          · rw [if_pos hk] at hmem
            cases hmem
          · rw [if_neg hk] at hmem
            exact List.take_subset _ _ hmem
        exact (mem_sortLe strLe mainBranch (timestampBranches branches)).mp h1
      · rw [if_neg hlen] at hmem
        cases hmem
    have : isTimestampBranch mainBranch = true :=
      (List.mem_filter.mp hts).2
    simp [isTimestampBranch] at this

/-- Claim C10, witness: a branch list containing `main` and one timestamp
branch, with a file-listing oracle that always raises and keep count 0. -/
theorem c10_witness :
    mainBranch ∈ (delete_invalid_branches (fun _ => .error ()) (fun _ => .ok ())
        [mainBranch, "20250101_000001".toList]).1 ∧
    mainBranch ∉ (delete_invalid_branches (fun _ => .error ()) (fun _ => .ok ())
        [mainBranch, "20250101_000001".toList]).2 ∧
    mainBranch ∉ branchesToDelete [mainBranch, "20250101_000001".toList] 0 :=
  c10_main_protected (fun _ => .error ()) (fun _ => .ok ())
    [mainBranch, "20250101_000001".toList] 0 (by decide)

/-- Claim C6, counterexample: the retention filter accepts the branch name
abcdefgh_ijklmn - length 15 with the separator at index 8 but not 14 digits -
so retention discovery does not restrict itself to the exact Version
Identifier shape demanded by the naming contract. -/
theorem c6_counterexample :
    timestampBranches ["abcdefgh_ijklmn".toList] = ["abcdefgh_ijklmn".toList] ∧
    specVersionIdShape "abcdefgh_ijklmn".toList = false := by decide

/-- Claim C6 (amended): the Resolver considers a candidate only if its suffix
has the exact 14-digits-plus-separator shape, while the Retention Manager
filter admits any non-main name of length 15 with an underscore at index 8,
never checking the digits; in both components a non-matching name is silently
excluded by a pure filter, never an error. -/
theorem c6_shape_filters (branches : List Str) (name : Str)
    (lf : Str → Except Unit (List Str)) (base : Str) (repos : List Str) :
    (name ∈ timestampBranches branches ↔
      name ∈ branches ∧ name ≠ mainBranch ∧ name.length = 15 ∧ name[8]? = some '_') ∧
    (∀ p ∈ find_valid_timestamped_repos lf base (.ok repos),
      isTimestampShape p.1 = true) := by
  constructor
  · rw [timestampBranches, List.mem_filter]
    simp [isTimestampBranch, Bool.and_eq_true, decide_eq_true_eq, beq_iff_eq,
      and_assoc]
  · intro p hp
    rcases mem_find_valid.mp hp with ⟨r, hr, hcp⟩
    exact (candidatePair_spec hcp).2.1

/-- Claim C6, witness: the well-formed identifier 20250101_120000 passes the
retention filter, and the suffix collected by the Resolver for the repository
u/run-20250101_120000 has the full timestamp shape. -/
theorem c6_witness :
    "20250101_120000".toList ∈ timestampBranches ["20250101_120000".toList] ∧
    isTimestampShape "20250101_120000".toList = true := by
  constructor
  · exact (c6_shape_filters ["20250101_120000".toList] ("20250101_120000".toList)
      (fun _ => .ok [finishCheckFile]) "run".toList
      ["u/run-20250101_120000".toList]).1.mpr (by decide)
  · exact (c6_shape_filters ["20250101_120000".toList] ("20250101_120000".toList)
      (fun _ => .ok [finishCheckFile]) "run".toList
      ["u/run-20250101_120000".toList]).2
      ("20250101_120000".toList, "u/run-20250101_120000".toList) (by decide)

/-- Claim C4: for every series, the Resolver returns the repository with the
maximal Version Identifier among the candidates whose short name matches the
series pattern, whose suffix parses as a timestamp, and which contain the
completion marker; it returns none exactly when no valid candidate exists;
and a repository lacking the completion marker is never the returned
result (third conjunct of the success case). -/
theorem c4_resolver_latest_valid (lf : Str → Except Unit (List Str))
    (base : Str) (repos : List Str) :
    (∀ rid, get_latest_timestamped_repo lf base (.ok repos) = some rid →
      rid ∈ repos ∧
      (∃ ts, candidatePair lf base rid = some (ts, rid) ∧
        ∀ r ts2, r ∈ repos → candidatePair lf base r = some (ts2, r) →
          strLe ts2 ts = true) ∧
      ∃ files, lf rid = .ok files ∧ finishCheckFile ∈ files) ∧
    (get_latest_timestamped_repo lf base (.ok repos) = none ↔
      ∀ r ∈ repos, candidatePair lf base r = none) := by
  have hpw : (find_valid_timestamped_repos lf base (.ok repos)).Pairwise
      (fun x y => strLe x.1 y.1 = true) := by
    unfold find_valid_timestamped_repos
    exact pairwise_sortLe
      (fun p q r2 => strLe_trans p.1 q.1 r2.1)
      (fun p q => strLe_total p.1 q.1) _
  constructor
  · intro rid hlatest
    unfold get_latest_timestamped_repo at hlatest
    rcases Option.map_eq_some'.mp hlatest with ⟨p, hlast, hprid⟩
    obtain ⟨r, hr, hcp⟩ := mem_find_valid.mp (getLastMem hlast)
    obtain ⟨hsnd, hshape, files, hlf, hmem⟩ := candidatePair_spec hcp
    have hrrid : r = rid := by rw [← hprid, hsnd]
    subst hrrid
    refine ⟨hr, ⟨p.1, ?_, ?_⟩, files, hlf, hmem⟩
    · rw [hcp, ← hsnd]
    · intro r2 ts2 hr2 hcp2
      have hmem2 : (ts2, r2) ∈ find_valid_timestamped_repos lf base (.ok repos) :=
        mem_find_valid.mpr ⟨r2, hr2, hcp2⟩
      rcases pairwiseLeGetLast hpw hlast (ts2, r2) hmem2 with heq | hle
      · rw [show ts2 = p.1 from congrArg Prod.fst heq]
        exact strLe_refl p.1
      · exact hle
  · unfold get_latest_timestamped_repo
    rw [Option.map_eq_none', List.getLast?_eq_none_iff]
    unfold find_valid_timestamped_repos
    rw [sortLe_eq_nil]
    exact List.filterMap_eq_nil_iff

/-- Claim C4, witness: series `run` with three versions of which the newest
lacks the completion marker; the Resolver returns the newest complete one,
u/run-20250102_000000, it is maximal among the valid candidates, and its file
listing contains the marker. -/
theorem c4_witness :
    "u/run-20250102_000000".toList ∈
      ["u/run-20250101_000000".toList, "u/run-20250102_000000".toList,
        "u/run-20250103_000000".toList] ∧
    (∃ ts, candidatePair
        (fun rid => if rid = "u/run-20250103_000000".toList then Except.ok []
          else Except.ok [finishCheckFile])
        "run".toList "u/run-20250102_000000".toList =
          some (ts, "u/run-20250102_000000".toList) ∧
      ∀ r ts2, r ∈ ["u/run-20250101_000000".toList, "u/run-20250102_000000".toList,
          "u/run-20250103_000000".toList] →
        candidatePair
          (fun rid => if rid = "u/run-20250103_000000".toList then Except.ok []
            else Except.ok [finishCheckFile])
          "run".toList r = some (ts2, r) →
        strLe ts2 ts = true) ∧
    ∃ files,
      (fun rid => if rid = "u/run-20250103_000000".toList then Except.ok []
        else Except.ok [finishCheckFile] : Str → Except Unit (List Str))
        "u/run-20250102_000000".toList = .ok files ∧ finishCheckFile ∈ files :=
  (c4_resolver_latest_valid
      (fun rid => if rid = "u/run-20250103_000000".toList then Except.ok []
        else Except.ok [finishCheckFile])
      "run".toList
      ["u/run-20250101_000000".toList, "u/run-20250102_000000".toList,
        "u/run-20250103_000000".toList]).1
    ("u/run-20250102_000000".toList) (by decide)

end Ccot
